import Mathlib

/-!
Verification development for the discord-intl message front-end.

The definitions below are shallow embeddings of the Rust sources:

* intl_markdown/src/byte_lookup.rs           (byte classifier)
* intl_markdown/src/ast/util.rs              (unescape, escape_href, format_plain_text)
* intl_message_database/src/messages/message_variables_visitor.rs
* intl_message_database/src/messages/value.rs (MessageValue)
* intl_message_utils/src/lib.rs              (file-kind predicates)

Machine bytes are modelled as Nat values below 256, strings either as Lean
String or as List Char / List Nat (byte lists) depending on how the Rust code
iterates them.
-/

namespace DiscordIntl

/-! Byte classifier: intl_markdown/src/byte_lookup.rs -/

/-- The bytes passed to the lookup-table generator macro in byte_lookup.rs,
in source order: tab, newline, form feed, carriage return, space, and the
punctuation characters of the byte string literal. -/
def TOKEN_SIGNIFICANT_BYTE_LIST : List Nat :=
  [9, 10, 12, 13, 32, 33, 34, 36, 38, 39, 40, 41, 42, 58, 60, 62,
   91, 92, 93, 95, 96, 123, 125, 126]

/-- Modelled from the spec: the table produced by the ASCII lookup-table
generator macro (the macro crate itself is not under src/). Entry b is 1 when
byte b occurs in the macro argument byte string, 0 otherwise. -/
def TOKEN_SIGNIFICANT_BYTES : List Nat :=
  (List.range 256).map (fun b => if b ∈ TOKEN_SIGNIFICANT_BYTE_LIST then 1 else 0)

/-- Embedding of byte_is_significant: table lookup compared against zero. -/
def byte_is_significant (byte : Nat) : Bool :=
  TOKEN_SIGNIFICANT_BYTES.getD byte 0 != 0

/-- The byte set that the specification claims for byte_is_significant
(it does not list the bang character, byte 33). -/
def claimedSignificantBytes : List Nat :=
  [9, 10, 12, 13, 32, 34, 36, 38, 39, 40, 41, 42, 58, 60, 62,
   91, 92, 93, 95, 96, 123, 125, 126]

/-- Embedding of the UTF8_LENGTH_LOOKUP table from byte_lookup.rs. -/
def UTF8_LENGTH_LOOKUP : List Nat :=
  [1, 1, 1, 1, 1, 1, 1, 1, 1, 1, 1, 1, 1, 1, 1, 1,
   0, 0, 0, 0, 0, 0, 0, 0, 2, 2, 2, 2, 3, 3, 4, 0]

/-- Embedding of char_length_from_byte: index the table by the top five bits
of the byte (shift right by three). -/
def char_length_from_byte (byte : Nat) : Nat :=
  UTF8_LENGTH_LOOKUP.getD (byte / 8) 0

/-! Escaping and text utilities: intl_markdown/src/ast/util.rs -/

/-- Rust u8::is_ascii_punctuation: the four ASCII punctuation ranges. -/
def isAsciiPunctuation (b : Nat) : Bool :=
  (0x21 ≤ b && b ≤ 0x2F) || (0x3A ≤ b && b ≤ 0x40) ||
    (0x5B ≤ b && b ≤ 0x60) || (0x7B ≤ b && b ≤ 0x7E)

/-- Rust slice text[start..stop] on a byte list. -/
def listSlice (bytes : List Nat) (start stop : Nat) : List Nat :=
  (bytes.take stop).drop start

/-- Embedding of the while loop of unescape: walks the byte list with an
index and a pending-segment start, flushing segments into the result exactly
as the Rust loop does with push_str. -/
def unescapeLoop (bytes : List Nat) (index plaintextStart : Nat)
    (result : List Nat) : List Nat :=
  if _h : index < bytes.length then
    let byte := bytes.getD index 0
    if byte == 92 && decide (index + 1 < bytes.length) &&
        isAsciiPunctuation (bytes.getD (index + 1) 0) then
      unescapeLoop bytes (index + 2) (index + 1)
        (result ++ listSlice bytes plaintextStart index)
    else if byte == 13 then
      unescapeLoop bytes (index + 1) (index + 1)
        (result ++ listSlice bytes plaintextStart index)
    else
      unescapeLoop bytes (index + 1) plaintextStart result
  else
    result ++ listSlice bytes plaintextStart index
termination_by bytes.length - index
decreasing_by
  all_goals omega

/-- Embedding of unescape from ast/util.rs, on the byte list of the input. -/
def unescape (text : List Nat) : List Nat :=
  unescapeLoop text 0 0 []

/-- Statement of the specification's description of unescape: one
left-to-right pass; a backslash byte directly followed by an ASCII
punctuation byte is dropped and the punctuation byte is kept without being
re-examined; a bare carriage-return byte is dropped; all other bytes pass
through unchanged. -/
def specUnescape : List Nat → List Nat
  | [] => []
  | [b] => if b == 13 then [] else [b]
  | b :: b2 :: rest =>
    if b == 92 && isAsciiPunctuation b2 then b2 :: specUnescape rest
    else if b == 13 then specUnescape (b2 :: rest)
    else b :: specUnescape (b2 :: rest)

/-- Embedding of the HREF_SAFE table from ast/util.rs, all 128 entries
copied verbatim. -/
def HREF_SAFE : List Nat :=
  [0, 0, 0, 0, 0, 0, 0, 0, 0, 0, 0, 0, 0, 0, 0, 0,
   0, 0, 0, 0, 0, 0, 0, 0, 0, 0, 0, 0, 0, 0, 0, 0,
   0, 1, 0, 1, 1, 1, 0, 0, 1, 1, 1, 1, 1, 1, 1, 1,
   1, 1, 1, 1, 1, 1, 1, 1, 1, 1, 1, 1, 0, 1, 0, 1,
   1, 1, 1, 1, 1, 1, 1, 1, 1, 1, 1, 1, 1, 1, 1, 1,
   1, 1, 1, 1, 1, 1, 1, 1, 1, 1, 1, 0, 0, 0, 1, 1,
   0, 1, 1, 1, 1, 1, 1, 1, 1, 1, 1, 1, 1, 1, 1, 1,
   1, 1, 1, 1, 1, 1, 1, 1, 1, 1, 1, 0, 0, 0, 1, 0]

/-- One uppercase hexadecimal digit, as Rust upper-hex formatting writes it. -/
def fmtUpperHexDigit (n : Nat) : Char :=
  if n < 10 then Char.ofNat (48 + n) else Char.ofNat (55 + n)

/-- Rust upper-hex formatting of a byte value (below 256): no zero padding,
so values below 16 render as a single digit. -/
def fmtUpperHexByte (b : Nat) : String :=
  if b < 16 then String.mk [fmtUpperHexDigit b]
  else String.mk [fmtUpperHexDigit (b / 16), fmtUpperHexDigit (b % 16)]

/-- The UTF-8 byte sequence of a character, as Rust reads it back from the
byte slice of the source string. -/
def utf8EncodeCharBytes (c : Char) : List Nat :=
  let n := c.toNat
  if n < 0x80 then [n]
  else if n < 0x800 then
    [0xC0 ||| (n >>> 6), 0x80 ||| (n &&& 0x3F)]
  else if n < 0x10000 then
    [0xE0 ||| (n >>> 12), 0x80 ||| ((n >>> 6) &&& 0x3F), 0x80 ||| (n &&& 0x3F)]
  else
    [0xF0 ||| (n >>> 18), 0x80 ||| ((n >>> 12) &&& 0x3F),
     0x80 ||| ((n >>> 6) &&& 0x3F), 0x80 ||| (n &&& 0x3F)]

/-- The body of the escape_href loop for one character: non-ASCII characters
and characters marked zero in HREF_SAFE are rewritten (ampersand to its
entity, everything else to a percent escape per UTF-8 byte); safe characters
are pushed through. -/
def escapeHrefPushChar (result : String) (c : Char) : String :=
  if 128 ≤ c.toNat ∨ HREF_SAFE.getD c.toNat 0 = 0 then
    if c == '&' then result ++ "&amp;"
    else (utf8EncodeCharBytes c).foldl (fun r b => r ++ "%" ++ fmtUpperHexByte b) result
  else result.push c

/-- Embedding of escape_href from ast/util.rs, iterating the characters of
the input. -/
def escapeHref (text : List Char) : String :=
  text.foldl escapeHrefPushChar ""

/-- Per-character description of escape_href following the specification,
amended only in the hex formatting: percent escapes use Rust upper-hex
formatting of the byte, which does not pad bytes below 16 to two digits. -/
def specEscapeHrefChar (c : Char) : String :=
  if c.toNat < 128 ∧ HREF_SAFE.getD c.toNat 0 ≠ 0 then String.mk [c]
  else if c == '&' then "&amp;"
  else String.join ((utf8EncodeCharBytes c).map (fun b => "%" ++ fmtUpperHexByte b))

/-- Per-character description of escape_href exactly as the specification
states it: every percent escape is the percent sign followed by two
uppercase hexadecimal digits. -/
def claimedEscapeHrefChar (c : Char) : String :=
  if c.toNat < 128 ∧ HREF_SAFE.getD c.toNat 0 ≠ 0 then String.mk [c]
  else if c == '&' then "&amp;"
  else String.join ((utf8EncodeCharBytes c).map (fun b =>
    "%" ++ String.mk [fmtUpperHexDigit (b / 16), fmtUpperHexDigit (b % 16)]))

/-- Characters the specification promises escape_href maps to themselves:
ASCII letters, digits, hyphen, underscore, dot, tilde. -/
def isClaimSafeChar (c : Char) : Bool :=
  (65 ≤ c.toNat && c.toNat ≤ 90) || (97 ≤ c.toNat && c.toNat ≤ 122) ||
    (48 ≤ c.toNat && c.toNat ≤ 57) ||
    c.toNat == 45 || c.toNat == 95 || c.toNat == 46 || c.toNat == 126

/-! File-kind predicates: intl_message_utils/src/lib.rs -/

/-- Rust str::ends_with on character lists: the pattern is a suffix of the
input. The suffixes used below are ASCII, so character-level and byte-level
suffix matching agree. -/
def ends_with (s pattern : List Char) : Bool :=
  pattern.isSuffixOf s

/-- Embedding of is_message_definitions_file. -/
def is_message_definitions_file (file_name : List Char) : Bool :=
  ends_with file_name ".messages".toList
    || ends_with file_name ".messages.tsx".toList
    || ends_with file_name ".messages.jsx".toList
    || ends_with file_name ".messages.ts".toList
    || ends_with file_name ".messages.js".toList

/-- Embedding of is_message_translations_file. -/
def is_message_translations_file (file_name : List Char) : Bool :=
  ends_with file_name ".messages.json".toList
    || ends_with file_name ".messages.jsona".toList

/-! AST data model. Modelled from the spec: the AST type definitions live in
intl_markdown/src/ast outside src/, but their variants and payloads are fixed
by the data model section of the specification and by how util.rs and the
variable visitor pattern match on them. -/

mutual

inductive Icu where
  | icuVariable (name : String)
  | icuPlural (name : String) (arms : List IcuPluralArm)
  | icuDate (name : String)
  | icuTime (name : String)
  | icuNumber (name : String)

inductive IcuPluralArm where
  | mk (selector : String) (content : List InlineContent)

inductive TextOrPlaceholder where
  | text (content : String)
  | placeholder (icuNode : Icu)

inductive InlineContent where
  | text (content : String)
  | emphasis (content : List InlineContent)
  | strong (content : List InlineContent)
  | strikethrough (content : List InlineContent)
  | codeSpan (content : String)
  | hardLineBreak
  | link (label : List InlineContent) (destination : TextOrPlaceholder)
  | hook (name : String) (content : List InlineContent)
  | icu (icuNode : Icu)
  | icuPound

end

inductive BlockNode where
  | paragraph (content : List InlineContent)
  | heading (level : Nat) (content : List InlineContent)
  | codeBlock (content : String)
  | thematicBreak
  | inlineContent (content : List InlineContent)

/-- Modelled from the spec: the root of a parsed message, an ordered
sequence of block nodes. -/
structure Document where
  blocks : List BlockNode

/-! Variable extraction: message_variables_visitor.rs -/

inductive MessageVariableType where
  | any
  | number
  | plural
  | enum (values : List String)
  | date
  | time
  | hookFunction
  | linkFunction
deriving DecidableEq, Repr

/-- One occurrence of a variable in a message: its optional span and its
inferred kind. -/
structure MessageVariableInstance where
  span : Option Nat
  kind : MessageVariableType
deriving DecidableEq, Repr

/-- Modelled from the spec: interned key symbols are stable identifiers for
strings; they are modelled as the strings themselves. -/
abbrev KeySymbol := String

/-- Modelled from the spec: the error side of MessagesResult, carrying a
message. -/
abbrev MessagesResult (α : Type) := Except String α

/-- The catalog from variable name to the ordered instances of that
variable. The Rust KeySymbolMap is modelled as an association list whose
lookup sees the first (unique) entry per key. -/
structure MessageVariables where
  vars : List (KeySymbol × List MessageVariableInstance)
deriving DecidableEq, Repr

/-- Append an instance onto the entry for the given name, creating the entry
if the name is absent, exactly as the Rust entry/or_insert_with/push chain
behaves. -/
def addInstanceEntries (entries : List (KeySymbol × List MessageVariableInstance))
    (name : KeySymbol) (inst : MessageVariableInstance) :
    List (KeySymbol × List MessageVariableInstance) :=
  match entries with
  | [] => [(name, [inst])]
  | (key, insts) :: rest =>
    if key = name then (key, insts ++ [inst]) :: rest
    else (key, insts) :: addInstanceEntries rest name inst

def MessageVariables.new : MessageVariables := ⟨[]⟩

/-- Embedding of MessageVariables::add_instance. -/
def MessageVariables.addInstance (mv : MessageVariables) (name : KeySymbol)
    (kind : MessageVariableType) (span : Option Nat) : MessageVariables :=
  ⟨addInstanceEntries mv.vars name ⟨span, kind⟩⟩

/-- Embedding of MessageVariables::get: lookup of a key in the catalog. -/
def MessageVariables.get (mv : MessageVariables) (key : KeySymbol) :
    Option (List MessageVariableInstance) :=
  mv.vars.lookup key

/-- Embedding of MessageVariables::count: the number of uniquely named
vars. -/
def MessageVariables.count (mv : MessageVariables) : Nat :=
  mv.vars.length

/-- Record a list of (name, kind) occurrences in order, each as one instance
with no span, via add_instance. -/
def MessageVariables.addAll (mv : MessageVariables)
    (l : List (KeySymbol × MessageVariableType)) : MessageVariables :=
  l.foldl (fun acc p => acc.addInstance p.1 p.2 none) mv

/-- Modelled from the spec: a global interner that succeeds on every string
and returns a stable identifier, modelled as the string itself. -/
def goodIntern : String → MessagesResult KeySymbol :=
  fun s => Except.ok s

namespace MessageVariablesVisitor

mutual

/-- Embedding of MessageVariablesVisitor::visit_inline_children: the loop
over an inline sequence, with error propagation. -/
def visitInlineChildren (intern : String → MessagesResult KeySymbol) :
    List InlineContent → MessageVariables → MessagesResult MessageVariables
  | [], vars => Except.ok vars
  | child :: rest, vars =>
    match visitInlineContent intern child vars with
    | Except.error e => Except.error e
    | Except.ok variables2 => visitInlineChildren intern rest variables2

/-- Embedding of MessageVariablesVisitor::visit_inline_content. -/
def visitInlineContent (intern : String → MessagesResult KeySymbol) :
    InlineContent → MessageVariables → MessagesResult MessageVariables
  | InlineContent.text _, vars => Except.ok vars
  | InlineContent.icuPound, vars => Except.ok vars
  | InlineContent.icu icuNode, vars => visitIcu intern icuNode vars
  | InlineContent.emphasis content, vars =>
    match intern "i" with
    | Except.error e => Except.error e
    | Except.ok sym =>
      visitInlineChildren intern content
        (vars.addInstance sym MessageVariableType.hookFunction none)
  | InlineContent.strong content, vars =>
    match intern "b" with
    | Except.error e => Except.error e
    | Except.ok sym =>
      visitInlineChildren intern content
        (vars.addInstance sym MessageVariableType.hookFunction none)
  | InlineContent.strikethrough content, vars =>
    match intern "del" with
    | Except.error e => Except.error e
    | Except.ok sym =>
      visitInlineChildren intern content
        (vars.addInstance sym MessageVariableType.hookFunction none)
  | InlineContent.hardLineBreak, vars =>
    match intern "br" with
    | Except.error e => Except.error e
    | Except.ok sym =>
      Except.ok (vars.addInstance sym MessageVariableType.hookFunction none)
  | InlineContent.codeSpan _, vars =>
    match intern "code" with
    | Except.error e => Except.error e
    | Except.ok sym =>
      Except.ok (vars.addInstance sym MessageVariableType.hookFunction none)
  | InlineContent.hook name content, vars =>
    match intern name with
    | Except.error e => Except.error e
    | Except.ok sym =>
      visitInlineChildren intern content
        (vars.addInstance sym MessageVariableType.hookFunction none)
  | InlineContent.link label destination, vars =>
    match intern "link" with
    | Except.error e => Except.error e
    | Except.ok sym =>
      match visitInlineChildren intern label
          (vars.addInstance sym MessageVariableType.linkFunction none) with
      | Except.error e => Except.error e
      | Except.ok variables2 =>
        match destination with
        | TextOrPlaceholder.placeholder icuNode => visitIcu intern icuNode variables2
        | TextOrPlaceholder.text _ => Except.ok variables2

/-- Embedding of MessageVariablesVisitor::visit_icu. -/
def visitIcu (intern : String → MessagesResult KeySymbol) :
    Icu → MessageVariables → MessagesResult MessageVariables
  | Icu.icuVariable name, vars =>
    match intern name with
    | Except.error e => Except.error e
    | Except.ok sym =>
      Except.ok (vars.addInstance sym MessageVariableType.any none)
  | Icu.icuPlural name arms, vars =>
    match intern name with
    | Except.error e => Except.error e
    | Except.ok sym =>
      visitPluralArms intern arms
        (vars.addInstance sym MessageVariableType.plural none)
  | Icu.icuDate name, vars =>
    match intern name with
    | Except.error e => Except.error e
    | Except.ok sym =>
      Except.ok (vars.addInstance sym MessageVariableType.date none)
  | Icu.icuTime name, vars =>
    match intern name with
    | Except.error e => Except.error e
    | Except.ok sym =>
      Except.ok (vars.addInstance sym MessageVariableType.time none)
  | Icu.icuNumber name, vars =>
    match intern name with
    | Except.error e => Except.error e
    | Except.ok sym =>
      Except.ok (vars.addInstance sym MessageVariableType.number none)

/-- The loop over plural arms inside visit_icu: each arm's content is
visited as inline children. -/
def visitPluralArms (intern : String → MessagesResult KeySymbol) :
    List IcuPluralArm → MessageVariables → MessagesResult MessageVariables
  | [], vars => Except.ok vars
  | IcuPluralArm.mk _ content :: rest, vars =>
    match visitInlineChildren intern content vars with
    | Except.error e => Except.error e
    | Except.ok variables2 => visitPluralArms intern rest variables2

end

/-- Embedding of MessageVariablesVisitor::visit_block. -/
def visitBlock (intern : String → MessagesResult KeySymbol) :
    BlockNode → MessageVariables → MessagesResult MessageVariables
  | BlockNode.inlineContent content, vars =>
    visitInlineChildren intern content vars
  | BlockNode.paragraph content, vars =>
    match intern "p" with
    | Except.error e => Except.error e
    | Except.ok sym =>
      visitInlineChildren intern content
        (vars.addInstance sym MessageVariableType.hookFunction none)
  | BlockNode.heading level content, vars =>
    match intern ("h" ++ toString level) with
    | Except.error e => Except.error e
    | Except.ok sym =>
      visitInlineChildren intern content
        (vars.addInstance sym MessageVariableType.hookFunction none)
  | BlockNode.codeBlock _, vars =>
    match intern "codeBlock" with
    | Except.error e => Except.error e
    | Except.ok sym =>
      Except.ok (vars.addInstance sym MessageVariableType.hookFunction none)
  | BlockNode.thematicBreak, vars =>
    match intern "hr" with
    | Except.error e => Except.error e
    | Except.ok sym =>
      Except.ok (vars.addInstance sym MessageVariableType.hookFunction none)

/-- The loop over blocks inside visit. -/
def visitBlocks (intern : String → MessagesResult KeySymbol) :
    List BlockNode → MessageVariables → MessagesResult MessageVariables
  | [], vars => Except.ok vars
  | block :: rest, vars =>
    match visitBlock intern block vars with
    | Except.error e => Except.error e
    | Except.ok variables2 => visitBlocks intern rest variables2

/-- Embedding of MessageVariablesVisitor::visit. -/
def visit (intern : String → MessagesResult KeySymbol) (ast : Document)
    (vars : MessageVariables) : MessagesResult MessageVariables :=
  visitBlocks intern ast.blocks vars

end MessageVariablesVisitor

/-! Expected variable occurrences, written from the specification's
type-inference table: one (name, type) pair per AST-node occurrence, in
traversal order. -/

mutual

/-- Occurrences of an inline sequence, per the specification's table. -/
def specInlineListInstances : List InlineContent → List (String × MessageVariableType)
  | [] => []
  | child :: rest => specInlineInstances child ++ specInlineListInstances rest

/-- Occurrences of one inline node, per the specification's table: emphasis
records i, strong records b, strikethrough records del, hard line break
records br, code span records code, a hook records its name (all as
HookFunction), a link records link as LinkFunction and additionally visits
an ICU placeholder destination, text and pound record nothing, and the
traversal recurses into every nested inline sequence. -/
def specInlineInstances : InlineContent → List (String × MessageVariableType)
  | InlineContent.text _ => []
  | InlineContent.icuPound => []
  | InlineContent.icu icuNode => specIcuInstances icuNode
  | InlineContent.emphasis content =>
    ("i", MessageVariableType.hookFunction) :: specInlineListInstances content
  | InlineContent.strong content =>
    ("b", MessageVariableType.hookFunction) :: specInlineListInstances content
  | InlineContent.strikethrough content =>
    ("del", MessageVariableType.hookFunction) :: specInlineListInstances content
  | InlineContent.hardLineBreak => [("br", MessageVariableType.hookFunction)]
  | InlineContent.codeSpan _ => [("code", MessageVariableType.hookFunction)]
  | InlineContent.hook name content =>
    (name, MessageVariableType.hookFunction) :: specInlineListInstances content
  | InlineContent.link label destination =>
    ("link", MessageVariableType.linkFunction) ::
      (specInlineListInstances label ++ specDestinationInstances destination)

/-- Occurrences contributed by a link destination: an ICU placeholder
destination is visited as an ICU node, a literal destination contributes
nothing. -/
def specDestinationInstances : TextOrPlaceholder → List (String × MessageVariableType)
  | TextOrPlaceholder.text _ => []
  | TextOrPlaceholder.placeholder icuNode => specIcuInstances icuNode

/-- Occurrences of an ICU node: its name with type Any, Plural, Date, Time
or Number, recursing into plural arm content. -/
def specIcuInstances : Icu → List (String × MessageVariableType)
  | Icu.icuVariable name => [(name, MessageVariableType.any)]
  | Icu.icuPlural name arms =>
    (name, MessageVariableType.plural) :: specPluralArmsInstances arms
  | Icu.icuDate name => [(name, MessageVariableType.date)]
  | Icu.icuTime name => [(name, MessageVariableType.time)]
  | Icu.icuNumber name => [(name, MessageVariableType.number)]

/-- Occurrences of a sequence of plural arms, each arm contributing the
occurrences of its inline content. -/
def specPluralArmsInstances : List IcuPluralArm → List (String × MessageVariableType)
  | [] => []
  | IcuPluralArm.mk _ content :: rest =>
    specInlineListInstances content ++ specPluralArmsInstances rest

end

/-- Occurrences of one block node, per the specification's table: a
paragraph records p, a heading of level N records hN, a code block records
codeBlock, a thematic break records hr (all HookFunction), and bare inline
content records nothing of its own. -/
def specBlockInstances : BlockNode → List (String × MessageVariableType)
  | BlockNode.paragraph content =>
    ("p", MessageVariableType.hookFunction) :: specInlineListInstances content
  | BlockNode.heading level content =>
    ("h" ++ toString level, MessageVariableType.hookFunction) ::
      specInlineListInstances content
  | BlockNode.codeBlock _ => [("codeBlock", MessageVariableType.hookFunction)]
  | BlockNode.thematicBreak => [("hr", MessageVariableType.hookFunction)]
  | BlockNode.inlineContent content => specInlineListInstances content

/-- Occurrences of a block sequence. -/
def specBlocksInstances : List BlockNode → List (String × MessageVariableType)
  | [] => []
  | block :: rest => specBlockInstances block ++ specBlocksInstances rest

/-- Occurrences of a whole document, per the specification. -/
def specDocumentInstances (d : Document) : List (String × MessageVariableType) :=
  specBlocksInstances d.blocks

/-! Plain-text flattening: format_plain_text in ast/util.rs -/

mutual

/-- Embedding of format_plain_text_inner: the loop over an inline sequence,
threading the output buffer. The unimplemented-path branch for generic ICU
nodes in the Rust source is modelled as the none result. -/
def format_plain_text_inner (buffer : String) :
    List InlineContent → Option String
  | [] => some buffer
  | element :: rest =>
    match format_plain_text_element buffer element with
    | none => none
    | some buffer2 => format_plain_text_inner buffer2 rest

/-- The body of the format_plain_text_inner loop for one element, matching
the Rust match arm for arm. -/
def format_plain_text_element (buffer : String) :
    InlineContent → Option String
  | InlineContent.text t => some (buffer ++ t)
  | InlineContent.strong content => format_plain_text_inner buffer content
  | InlineContent.emphasis content => format_plain_text_inner buffer content
  | InlineContent.link label _ => format_plain_text_inner buffer label
  | InlineContent.codeSpan content => some (buffer ++ content)
  | InlineContent.hardLineBreak => some buffer
  | InlineContent.hook _ content => format_plain_text_inner buffer content
  | InlineContent.strikethrough content => format_plain_text_inner buffer content
  | InlineContent.icu _ => none
  | InlineContent.icuPound => some (buffer ++ "#")

end

/-- Embedding of format_plain_text: flatten into an initially empty buffer. -/
def format_plain_text (elements : List InlineContent) : Option String :=
  format_plain_text_inner "" elements

mutual

/-- Whether the flattening traversal of an inline sequence reaches an ICU
node other than a pound marker. -/
def inlineListContainsIcu : List InlineContent → Bool
  | [] => false
  | element :: rest => inlineContainsIcu element || inlineListContainsIcu rest

/-- Whether the flattening traversal of one inline node reaches an ICU node
other than a pound marker; the traversal enters nested content and link
labels, but not link destinations. -/
def inlineContainsIcu : InlineContent → Bool
  | InlineContent.text _ => false
  | InlineContent.strong content => inlineListContainsIcu content
  | InlineContent.emphasis content => inlineListContainsIcu content
  | InlineContent.link label _ => inlineListContainsIcu label
  | InlineContent.codeSpan _ => false
  | InlineContent.hardLineBreak => false
  | InlineContent.hook _ content => inlineListContainsIcu content
  | InlineContent.strikethrough content => inlineListContainsIcu content
  | InlineContent.icu _ => true
  | InlineContent.icuPound => false

end

mutual

/-- The specification's description of plain-text flattening of a sequence:
the concatenation, in order, of each element's visible text. -/
def specPlainTextList : List InlineContent → String
  | [] => ""
  | element :: rest => specPlainTextElem element ++ specPlainTextList rest

/-- The specification's description of the visible text of one inline node:
text content, recursively flattened nested content, the flattened label of a
link, verbatim code-span content, nothing for a hard line break, and the
pound character for an ICU pound marker. ICU placeholders have no described
visible text and contribute the empty string here; the flattening result is
only claimed on sequences that reach none. -/
def specPlainTextElem : InlineContent → String
  | InlineContent.text t => t
  | InlineContent.strong content => specPlainTextList content
  | InlineContent.emphasis content => specPlainTextList content
  | InlineContent.link label _ => specPlainTextList label
  | InlineContent.codeSpan content => content
  | InlineContent.hardLineBreak => ""
  | InlineContent.hook _ content => specPlainTextList content
  | InlineContent.strikethrough content => specPlainTextList content
  | InlineContent.icu _ => ""
  | InlineContent.icuPound => "#"

end

/-! Message values: intl_message_database/src/messages/value.rs -/

/-- Modelled from the spec: a position of a message inside a source file,
a file identifier plus a byte offset. -/
structure FilePosition where
  file : String
  offset : Nat
deriving DecidableEq, Repr

/-- Embedding of the MessageValue struct. -/
structure MessageValue where
  raw : String
  parsed : Document
  vars : Option MessageVariables
  file_position : Option FilePosition

/-- Embedding of MessageValue::from_raw. The external parser
parse_intl_message, the helper message_may_have_blocks, and the global
interner live outside src/ and are taken as parameters; construction parses
the content, runs the variable visitor, and keeps the catalog only when the
visitor succeeded. -/
def MessageValue.from_raw (parse : String → Bool → Document)
    (mayHaveBlocks : String → Bool)
    (intern : String → MessagesResult KeySymbol)
    (content : String) : MessageValue :=
  let document := parse content (mayHaveBlocks content)
  let vars :=
    match MessageVariablesVisitor.visit intern document MessageVariables.new with
    | Except.ok v => some v
    | Except.error _ => none
  { raw := content, parsed := document, vars := vars, file_position := none }

/-- Embedding of the PartialEq implementation for MessageValue: equality of
the raw fields alone. -/
def MessageValue.beq (a b : MessageValue) : Bool :=
  a.raw == b.raw

/-! Theorems -/

/-- Claim C4 counterexample: the byte of the bang character (33) is
significant in the code, although it is missing from the byte set the
specification lists. -/
theorem byte_is_significant_claim_false :
    byte_is_significant 33 = true ∧ (33 ∈ claimedSignificantBytes) = False := by
  constructor
  · decide
  · decide

set_option maxRecDepth 8192 in
/-- Claim C4 (amended): byte_is_significant holds exactly on the
specification's byte set extended with the bang character, which is the byte
list of the generator macro invocation. -/
theorem byte_is_significant_iff (byte : Nat) (h : byte < 256) :
    byte_is_significant byte = true ↔ byte ∈ TOKEN_SIGNIFICANT_BYTE_LIST := by
  revert h
  revert byte
  decide

/-- Witness for the amended claim C4 at byte 9 (tab). -/
theorem byte_is_significant_iff_witness :
    9 < 256 ∧ (byte_is_significant 9 = true ↔ 9 ∈ TOKEN_SIGNIFICANT_BYTE_LIST) :=
  ⟨by decide, byte_is_significant_iff 9 (by decide)⟩

set_option maxRecDepth 8192 in
/-- Claim C9: char_length_from_byte returns 1 on ASCII bytes, 0 on UTF-8
continuation bytes, and 2, 3, 4 on two-, three-, four-byte lead bytes. -/
theorem char_length_from_byte_correct (byte : Nat) (h : byte < 256) :
    (byte ≤ 0x7F → char_length_from_byte byte = 1) ∧
    (0x80 ≤ byte → byte ≤ 0xBF → char_length_from_byte byte = 0) ∧
    (0xC0 ≤ byte → byte ≤ 0xDF → char_length_from_byte byte = 2) ∧
    (0xE0 ≤ byte → byte ≤ 0xEF → char_length_from_byte byte = 3) ∧
    (0xF0 ≤ byte → byte ≤ 0xF7 → char_length_from_byte byte = 4) := by
  revert h
  revert byte
  decide

/-- Witness for claim C9 at byte 0xC3, a two-byte lead. -/
theorem char_length_from_byte_correct_witness :
    0xC3 < 256 ∧
      ((0xC3 ≤ 0x7F → char_length_from_byte 0xC3 = 1) ∧
      (0x80 ≤ 0xC3 → 0xC3 ≤ 0xBF → char_length_from_byte 0xC3 = 0) ∧
      (0xC0 ≤ 0xC3 → 0xC3 ≤ 0xDF → char_length_from_byte 0xC3 = 2) ∧
      (0xE0 ≤ 0xC3 → 0xC3 ≤ 0xEF → char_length_from_byte 0xC3 = 3) ∧
      (0xF0 ≤ 0xC3 → 0xC3 ≤ 0xF7 → char_length_from_byte 0xC3 = 4)) :=
  ⟨by decide, char_length_from_byte_correct 0xC3 (by decide)⟩

/-- A nonempty suffix determines the last element of the list it is a
suffix of. -/
theorem ends_with_getLast (s p : List Char) (hp : p ≠ [])
    (h : ends_with s p = true) : s.getLast? = p.getLast? := by
  rw [ends_with, List.isSuffixOf_iff_suffix] at h
  obtain ⟨t, rfl⟩ := h
  exact List.getLast?_append_of_ne_nil t hp

/-- Claim C10: no file name is simultaneously a message definitions file and
a message translations file; the definition suffixes end in letters s or x
while the translation suffixes end in n or a. -/
theorem file_kind_predicates_disjoint (file_name : List Char) :
    (is_message_definitions_file file_name &&
      is_message_translations_file file_name) = false := by
  rcases Bool.eq_false_or_eq_true (is_message_definitions_file file_name) with hd | hd
  · rcases Bool.eq_false_or_eq_true (is_message_translations_file file_name) with ht | ht
    · exfalso
      simp only [is_message_definitions_file, Bool.or_eq_true] at hd
      simp only [is_message_translations_file, Bool.or_eq_true] at ht
      have hds : file_name.getLast? = some 's' ∨ file_name.getLast? = some 'x' := by
        rcases hd with (((h | h) | h) | h) | h
        · exact Or.inl (by rw [ends_with_getLast _ _ (by decide) h]; rfl)
        · exact Or.inr (by rw [ends_with_getLast _ _ (by decide) h]; rfl)
        · exact Or.inr (by rw [ends_with_getLast _ _ (by decide) h]; rfl)
        · exact Or.inl (by rw [ends_with_getLast _ _ (by decide) h]; rfl)
        · exact Or.inl (by rw [ends_with_getLast _ _ (by decide) h]; rfl)
      have hts : file_name.getLast? = some 'n' ∨ file_name.getLast? = some 'a' := by
        rcases ht with h | h
        · exact Or.inl (by rw [ends_with_getLast _ _ (by decide) h]; rfl)
        · exact Or.inr (by rw [ends_with_getLast _ _ (by decide) h]; rfl)
      rcases hds with h1 | h1 <;> rcases hts with h2 | h2 <;>
        rw [h1] at h2 <;> exact absurd h2 (by decide)
    · simp [ht]
  · simp [hd]

/-- Claim C3: MessageValue equality is decided solely by the raw source
text, and two values constructed from identical raw text are equal even when
built with different parser, block-detection and interner collaborators. -/
theorem message_value_eq_iff_raw (a b : MessageValue) :
    (MessageValue.beq a b = true ↔ a.raw = b.raw) ∧
    (∀ (parse1 parse2 : String → Bool → Document)
        (may1 may2 : String → Bool)
        (intern1 intern2 : String → MessagesResult KeySymbol)
        (content : String),
      MessageValue.beq (MessageValue.from_raw parse1 may1 intern1 content)
        (MessageValue.from_raw parse2 may2 intern2 content) = true) := by
  constructor
  · rw [MessageValue.beq]
    exact beq_iff_eq
  · intro parse1 parse2 may1 may2 intern1 intern2 content
    simp [MessageValue.beq, MessageValue.from_raw]

/-- The variables field of a constructed MessageValue is exactly the
successful result of the visitor pass. -/
theorem from_raw_vars (parse : String → Bool → Document)
    (mayHaveBlocks : String → Bool)
    (intern : String → MessagesResult KeySymbol) (content : String) :
    (MessageValue.from_raw parse mayHaveBlocks intern content).vars =
      (MessageVariablesVisitor.visit intern
        (parse content (mayHaveBlocks content)) MessageVariables.new).toOption := by
  cases h : MessageVariablesVisitor.visit intern
      (parse content (mayHaveBlocks content)) MessageVariables.new <;>
    simp [MessageValue.from_raw, Except.toOption, h]

/-- Claim C2: from_raw keeps the raw input and the parsed document, stores
the full visitor catalog exactly when the visitor pass succeeds, and stores
no catalog exactly when the visitor pass fails; a visitor failure never
aborts construction. -/
theorem from_raw_contract (parse : String → Bool → Document)
    (mayHaveBlocks : String → Bool)
    (intern : String → MessagesResult KeySymbol) (content : String) :
    (MessageValue.from_raw parse mayHaveBlocks intern content).raw = content ∧
    (MessageValue.from_raw parse mayHaveBlocks intern content).parsed =
      parse content (mayHaveBlocks content) ∧
    (∀ cat, MessageVariablesVisitor.visit intern
        (parse content (mayHaveBlocks content)) MessageVariables.new =
          Except.ok cat →
      (MessageValue.from_raw parse mayHaveBlocks intern content).vars = some cat) ∧
    (∀ e, MessageVariablesVisitor.visit intern
        (parse content (mayHaveBlocks content)) MessageVariables.new =
          Except.error e →
      (MessageValue.from_raw parse mayHaveBlocks intern content).vars = none) ∧
    ((MessageValue.from_raw parse mayHaveBlocks intern content).vars = none →
      ∃ e, MessageVariablesVisitor.visit intern
        (parse content (mayHaveBlocks content)) MessageVariables.new =
          Except.error e) := by
  refine ⟨rfl, rfl, ?_, ?_, ?_⟩
  · intro cat h
    rw [from_raw_vars, h]
    rfl
  · intro e h
    rw [from_raw_vars, h]
    rfl
  · intro h
    rw [from_raw_vars] at h
    cases hv : MessageVariablesVisitor.visit intern
        (parse content (mayHaveBlocks content)) MessageVariables.new with
    | ok cat => rw [hv] at h; exact absurd h (by simp [Except.toOption])
    | error e => exact ⟨e, rfl⟩

/-- An empty slice. -/
theorem listSlice_self (bytes : List Nat) (p : Nat) : listSlice bytes p p = [] := by
  apply List.drop_eq_nil_of_le
  simp [listSlice]

/-- Extending a slice by the byte at its right end. -/
theorem listSlice_extend (bytes : List Nat) (p i : Nat) (hpi : p ≤ i)
    (hi : i < bytes.length) :
    listSlice bytes p (i + 1) = listSlice bytes p i ++ [bytes.getD i 0] := by
  rw [listSlice, listSlice, List.take_succ, List.getElem?_eq_getElem hi,
    List.getD_eq_getElem bytes 0 hi]
  rw [List.drop_append_of_le_length]
  · rfl
  · simp
    omega

/-- Dropping a carriage return never changes the specification unescape. -/
theorem specUnescape_cr (rest : List Nat) :
    specUnescape (13 :: rest) = specUnescape rest := by
  match rest with
  | [] => rfl
  | b2 :: rest2 => rw [specUnescape]; rfl

/-- A backslash before punctuation keeps the punctuation byte only. -/
theorem specUnescape_escape (b2 : Nat) (rest : List Nat)
    (h : isAsciiPunctuation b2 = true) :
    specUnescape (92 :: b2 :: rest) = b2 :: specUnescape rest := by
  rw [specUnescape]
  simp [h]

/-- A byte that opens no escape and is not a carriage return passes through. -/
theorem specUnescape_default (b : Nat) (rest : List Nat)
    (hne : (match rest with
      | b2 :: _ => (b == 92 && isAsciiPunctuation b2) = false
      | [] => True))
    (h13 : (b == 13) = false) :
    specUnescape (b :: rest) = b :: specUnescape rest := by
  match rest with
  | [] =>
    have e : specUnescape [b] = if b == 13 then [] else [b] := rfl
    rw [e, h13]
    simp [specUnescape]
  | b2 :: rest2 =>
    have hne2 : (b == 92 && isAsciiPunctuation b2) = false := hne
    have e : specUnescape (b :: b2 :: rest2) =
        if b == 92 && isAsciiPunctuation b2 then b2 :: specUnescape rest2
        else if b == 13 then specUnescape (b2 :: rest2)
        else b :: specUnescape (b2 :: rest2) := rfl
    rw [e, hne2, h13]
    simp

/-- Invariant of the unescape loop: the result so far, the pending plain
segment, and the specification unescape of the remaining bytes compose to
the final answer. -/
theorem unescapeLoop_spec (bytes : List Nat) (index plaintextStart : Nat)
    (result : List Nat) (hp : plaintextStart ≤ index) :
    unescapeLoop bytes index plaintextStart result =
      result ++ listSlice bytes plaintextStart index ++
        specUnescape (bytes.drop index) := by
  rw [unescapeLoop]
  by_cases hi : index < bytes.length
  · rw [dif_pos hi]
    by_cases hesc : (bytes.getD index 0 == 92 && decide (index + 1 < bytes.length) &&
        isAsciiPunctuation (bytes.getD (index + 1) 0)) = true
    · rw [if_pos hesc]
      have h1 : index + 1 < bytes.length := by
        rcases Bool.and_eq_true_iff.mp hesc with ⟨h', _⟩
        rcases Bool.and_eq_true_iff.mp h' with ⟨_, hd'⟩
        exact of_decide_eq_true hd'
      have hb92 : bytes.getD index 0 = 92 := by
        rcases Bool.and_eq_true_iff.mp hesc with ⟨h', _⟩
        rcases Bool.and_eq_true_iff.mp h' with ⟨hb, _⟩
        exact eq_of_beq hb
      have hpunct : isAsciiPunctuation (bytes.getD (index + 1) 0) = true := by
        rcases Bool.and_eq_true_iff.mp hesc with ⟨_, hp'⟩
        exact hp'
      rw [unescapeLoop_spec bytes (index + 2) (index + 1)
        (result ++ listSlice bytes plaintextStart index) (by omega)]
      have hdrop : bytes.drop index =
          92 :: bytes.getD (index + 1) 0 :: bytes.drop (index + 2) := by
        rw [List.drop_eq_getElem_cons hi, List.drop_eq_getElem_cons h1,
          ← List.getD_eq_getElem bytes 0 hi, ← List.getD_eq_getElem bytes 0 h1, hb92]
      rw [hdrop, specUnescape_escape _ _ hpunct]
      have hs2 : listSlice bytes (index + 1) (index + 2) =
          [bytes.getD (index + 1) 0] := by
        rw [listSlice_extend bytes (index + 1) (index + 1) (le_refl _) h1,
          listSlice_self]
        rfl
      rw [hs2]
      simp
    · rw [if_neg (by simpa using hesc)]
      by_cases hcr : (bytes.getD index 0 == 13) = true
      · rw [if_pos hcr]
        rw [unescapeLoop_spec bytes (index + 1) (index + 1)
          (result ++ listSlice bytes plaintextStart index) (le_refl _)]
        rw [listSlice_self]
        have hdrop : bytes.drop index = 13 :: bytes.drop (index + 1) := by
          rw [List.drop_eq_getElem_cons hi, ← List.getD_eq_getElem bytes 0 hi,
            eq_of_beq hcr]
        rw [hdrop, specUnescape_cr]
        simp
      · rw [if_neg (by simpa using hcr)]
        rw [unescapeLoop_spec bytes (index + 1) plaintextStart result (by omega)]
        have hdrop : bytes.drop index =
            bytes.getD index 0 :: bytes.drop (index + 1) := by
          rw [List.drop_eq_getElem_cons hi, ← List.getD_eq_getElem bytes 0 hi]
        rw [hdrop, specUnescape_default]
        · rw [listSlice_extend bytes plaintextStart index hp hi]
          simp
        · cases hrest : bytes.drop (index + 1) with
          | nil => trivial
          | cons b2 rest2 =>
            have h1 : index + 1 < bytes.length := by
              by_contra hc
              rw [List.drop_eq_nil_of_le (by omega)] at hrest
              exact List.noConfusion hrest
            have hcons := List.drop_eq_getElem_cons h1
            rw [hrest] at hcons
            injection hcons with hb2' _
            have hb2 : b2 = bytes.getD (index + 1) 0 := by
              rw [List.getD_eq_getElem bytes 0 h1]
              exact hb2'
            rw [hb2]
            rw [Bool.not_eq_true] at hesc
            show (bytes.getD index 0 == 92 &&
              isAsciiPunctuation (bytes.getD (index + 1) 0)) = false
            rw [Bool.and_eq_false_iff]
            rcases Bool.and_eq_false_iff.mp hesc with h' | h'
            · rcases Bool.and_eq_false_iff.mp h' with h'' | h''
              · exact Or.inl h''
              · exact absurd (decide_eq_true h1) (by simp [h''])
            · exact Or.inr h'
        · simpa using hcr
  · rw [dif_neg hi]
    rw [List.drop_eq_nil_of_le (by omega)]
    rw [specUnescape]
    simp
termination_by bytes.length - index
decreasing_by
  all_goals omega

/-- Claim C6: unescape performs exactly the single left-to-right pass the
specification describes, and on the three bytes backslash backslash bang it
yields backslash bang. -/
theorem unescape_correct :
    (∀ text, unescape text = specUnescape text) ∧
    unescape [92, 92, 33] = [92, 33] := by
  have main : ∀ text, unescape text = specUnescape text := by
    intro text
    rw [unescape, unescapeLoop_spec text 0 0 [] (le_refl 0)]
    simp [listSlice]
  exact ⟨main, by rw [main]; decide⟩

/-- Left fold of string append starting from an accumulator. -/
theorem str_foldl_append (l : List String) (s : String) :
    l.foldl (· ++ ·) s = s ++ String.join l := by
  induction l generalizing s with
  | nil => simp [String.join, String.append_empty]
  | cons a l ih =>
    have hj : String.join (a :: l) = a ++ String.join l := by
      show List.foldl (· ++ ·) ("" ++ a) l = a ++ String.join l
      rw [String.empty_append]
      exact ih a
    simp only [List.foldl_cons, hj]
    rw [ih (s ++ a), String.append_assoc]

/-- String join of a cons. -/
theorem str_join_cons (a : String) (l : List String) :
    String.join (a :: l) = a ++ String.join l := by
  show List.foldl (· ++ ·) ("" ++ a) l = a ++ String.join l
  rw [String.empty_append]
  exact str_foldl_append l a

/-- The escape_href loop body appends exactly the per-character
specification contribution. -/
theorem escapeHrefPushChar_eq (result : String) (c : Char) :
    escapeHrefPushChar result c = result ++ specEscapeHrefChar c := by
  by_cases h : 128 ≤ c.toNat ∨ HREF_SAFE.getD c.toNat 0 = 0
  · have hns : ¬(c.toNat < 128 ∧ HREF_SAFE.getD c.toNat 0 ≠ 0) := by
      intro hc
      rcases h with h | h
      · omega
      · exact hc.2 h
    by_cases hamp : (c == '&') = true
    · rw [escapeHrefPushChar, specEscapeHrefChar, if_pos h, if_neg hns,
        if_pos hamp, if_pos hamp]
    · rw [escapeHrefPushChar, specEscapeHrefChar, if_pos h, if_neg hns,
        if_neg hamp, if_neg hamp]
      have hfold : ∀ (l : List Nat) (r : String),
          l.foldl (fun r b => r ++ "%" ++ fmtUpperHexByte b) r =
            r ++ String.join (l.map (fun b => "%" ++ fmtUpperHexByte b)) := by
        intro l
        induction l with
        | nil => intro r; simp [String.join, String.append_empty]
        | cons b l ih =>
          intro r
          simp only [List.foldl_cons, List.map_cons]
          rw [ih, str_join_cons]
          simp [String.append_assoc]
      exact hfold _ result
  · have hs : c.toNat < 128 ∧ HREF_SAFE.getD c.toNat 0 ≠ 0 := by
      push_neg at h
      exact ⟨by omega, h.2⟩
    rw [escapeHrefPushChar, specEscapeHrefChar, if_neg h, if_pos hs]
    cases result
    rfl

/-- The escape_href fold appends the joined per-character contributions. -/
theorem escapeHref_foldl (text : List Char) (r : String) :
    text.foldl escapeHrefPushChar r =
      r ++ String.join (text.map specEscapeHrefChar) := by
  induction text generalizing r with
  | nil => simp [String.join, String.append_empty]
  | cons c text ih =>
    simp only [List.foldl_cons, List.map_cons]
    rw [escapeHrefPushChar_eq, ih, str_join_cons, String.append_assoc]

/-- Joining singleton strings rebuilds the original character list. -/
theorem str_join_singletons (s : List Char) :
    String.join (s.map (fun c => String.mk [c])) = String.mk s := by
  induction s with
  | nil => rfl
  | cons c s ih =>
    simp only [List.map_cons]
    rw [str_join_cons, ih]
    show String.mk ([c] ++ s) = String.mk (c :: s)
    rfl

/-- Safe bytes of the claim are marked 1 in the href table. -/
theorem claim_safe_table (n : Nat) (hn : n < 128)
    (h : (65 ≤ n ∧ n ≤ 90) ∨ (97 ≤ n ∧ n ≤ 122) ∨ (48 ≤ n ∧ n ≤ 57) ∨
      n = 45 ∨ n = 95 ∨ n = 46 ∨ n = 126) :
    HREF_SAFE.getD n 0 ≠ 0 := by
  revert h
  revert hn
  revert n
  decide

/-- Claim-safe characters keep their identity under the per-character
specification map. -/
theorem specEscapeHrefChar_safe (c : Char) (h : isClaimSafeChar c = true) :
    specEscapeHrefChar c = String.mk [c] := by
  simp only [isClaimSafeChar, Bool.or_eq_true, Bool.and_eq_true,
    decide_eq_true_eq, beq_iff_eq] at h
  have hfacts : (65 ≤ c.toNat ∧ c.toNat ≤ 90) ∨ (97 ≤ c.toNat ∧ c.toNat ≤ 122) ∨
      (48 ≤ c.toNat ∧ c.toNat ≤ 57) ∨ c.toNat = 45 ∨ c.toNat = 95 ∨
      c.toNat = 46 ∨ c.toNat = 126 := by tauto
  have hlt : c.toNat < 128 := by omega
  have htable := claim_safe_table c.toNat hlt hfacts
  rw [specEscapeHrefChar, if_pos ⟨hlt, htable⟩]

/-- Claim C5 counterexample: on the tab character the code emits a single
hex digit, while the specification's two-digit description would emit a
zero-padded escape; the two disagree. -/
theorem escape_href_claim_false :
    escapeHref [Char.ofNat 9] = "%9" ∧
    claimedEscapeHrefChar (Char.ofNat 9) = "%09" ∧
    escapeHref [Char.ofNat 9] ≠
      String.join ([Char.ofNat 9].map claimedEscapeHrefChar) := by
  refine ⟨by decide, by decide, by decide⟩

/-- Claim C5 (amended): escape_href rewrites each character by the
per-character specification map with unpadded uppercase hex escapes, is the
identity on strings of ASCII letters, digits, hyphen, underscore, dot and
tilde, maps the ampersand example to its entity form, and percent-encodes
the two UTF-8 bytes of the e-acute character. -/
theorem escape_href_correct (text s : List Char)
    (hs : ∀ c ∈ s, isClaimSafeChar c = true) :
    escapeHref text = String.join (text.map specEscapeHrefChar) ∧
    escapeHref s = String.mk s ∧
    escapeHref "a&b".toList = "a&amp;b" ∧
    escapeHref "café".toList = "caf%C3%A9" := by
  have main : ∀ t : List Char,
      escapeHref t = String.join (t.map specEscapeHrefChar) := by
    intro t
    rw [escapeHref, escapeHref_foldl, String.empty_append]
  refine ⟨main text, ?_, by decide, by decide⟩
  rw [main s]
  rw [List.map_congr_left (fun c hc => specEscapeHrefChar_safe c (hs c hc))]
  exact str_join_singletons s

/-- Witness for the amended claim C5 on concrete inputs. -/
theorem escape_href_correct_witness :
    (∀ c ∈ "xy".toList, isClaimSafeChar c = true) ∧
    (escapeHref "a".toList =
        String.join ("a".toList.map specEscapeHrefChar) ∧
      escapeHref "xy".toList = String.mk "xy".toList ∧
      escapeHref "a&b".toList = "a&amp;b" ∧
      escapeHref "café".toList = "caf%C3%A9") :=
  ⟨by decide, escape_href_correct "a".toList "xy".toList (by decide)⟩

mutual

/-- Characterization of the flattening loop: it fails exactly when the
traversal reaches an ICU node, and otherwise appends the specification's
flattened text to the buffer. -/
theorem format_inner_char (elements : List InlineContent) :
    ∀ buffer, format_plain_text_inner buffer elements =
      if inlineListContainsIcu elements then none
      else some (buffer ++ specPlainTextList elements) := by
  intro buffer
  match elements with
  | [] =>
    simp [format_plain_text_inner, inlineListContainsIcu, specPlainTextList,
      String.append_empty]
  | e :: rest =>
    rw [format_plain_text_inner]
    rw [format_elem_char e buffer]
    by_cases he : inlineContainsIcu e = true
    · rw [if_pos he]
      have : inlineListContainsIcu (e :: rest) = true := by
        rw [inlineListContainsIcu, he, Bool.true_or]
      rw [if_pos this]
    · rw [if_neg he]
      show format_plain_text_inner (buffer ++ specPlainTextElem e) rest =
        if inlineListContainsIcu (e :: rest) = true then none
        else some (buffer ++ specPlainTextList (e :: rest))
      rw [format_inner_char rest (buffer ++ specPlainTextElem e)]
      have he' : inlineContainsIcu e = false := by simpa using he
      by_cases hr : inlineListContainsIcu rest = true
      · rw [if_pos hr]
        have : inlineListContainsIcu (e :: rest) = true := by
          rw [inlineListContainsIcu, hr, Bool.or_true]
        rw [if_pos this]
      · have hr' : inlineListContainsIcu rest = false := by simpa using hr
        rw [if_neg hr]
        have : inlineListContainsIcu (e :: rest) = false := by
          rw [inlineListContainsIcu, hr', he', Bool.or_false]
        rw [if_neg (by simp [this])]
        rw [specPlainTextList, String.append_assoc]
termination_by sizeOf elements

/-- Characterization of the flattening of a single element. -/
theorem format_elem_char (element : InlineContent) :
    ∀ buffer, format_plain_text_element buffer element =
      if inlineContainsIcu element then none
      else some (buffer ++ specPlainTextElem element) := by
  intro buffer
  match element with
  | InlineContent.text t =>
    simp [format_plain_text_element, inlineContainsIcu, specPlainTextElem]
  | InlineContent.strong content =>
    rw [format_plain_text_element, format_inner_char content buffer]
    simp [inlineContainsIcu, specPlainTextElem]
  | InlineContent.emphasis content =>
    rw [format_plain_text_element, format_inner_char content buffer]
    simp [inlineContainsIcu, specPlainTextElem]
  | InlineContent.link label destination =>
    rw [format_plain_text_element, format_inner_char label buffer]
    simp [inlineContainsIcu, specPlainTextElem]
  | InlineContent.codeSpan content =>
    simp [format_plain_text_element, inlineContainsIcu, specPlainTextElem]
  | InlineContent.hardLineBreak =>
    simp [format_plain_text_element, inlineContainsIcu, specPlainTextElem,
      String.append_empty]
  | InlineContent.hook name content =>
    rw [format_plain_text_element, format_inner_char content buffer]
    simp [inlineContainsIcu, specPlainTextElem]
  | InlineContent.strikethrough content =>
    rw [format_plain_text_element, format_inner_char content buffer]
    simp [inlineContainsIcu, specPlainTextElem]
  | InlineContent.icu icuNode =>
    simp [format_plain_text_element, inlineContainsIcu]
  | InlineContent.icuPound =>
    simp [format_plain_text_element, inlineContainsIcu, specPlainTextElem]
termination_by sizeOf element

end

/-- Claim C7: on an inline sequence in which the flattening traversal meets
no ICU placeholder, format_plain_text returns exactly the specification's
concatenation of visible text. -/
theorem format_plain_text_no_icu (elements : List InlineContent)
    (h : inlineListContainsIcu elements = false) :
    format_plain_text elements = some (specPlainTextList elements) := by
  rw [format_plain_text, format_inner_char elements "", if_neg (by simp [h]),
    String.empty_append]

/-- Witness for claim C7 on a concrete sequence exercising text, strong,
link, code span, hard line break and pound. -/
theorem format_plain_text_no_icu_witness :
    inlineListContainsIcu
      [InlineContent.text "a",
       InlineContent.strong [InlineContent.text "b"],
       InlineContent.link [InlineContent.text "l"] (TextOrPlaceholder.text "d"),
       InlineContent.codeSpan "c", InlineContent.hardLineBreak,
       InlineContent.icuPound] = false ∧
    format_plain_text
      [InlineContent.text "a",
       InlineContent.strong [InlineContent.text "b"],
       InlineContent.link [InlineContent.text "l"] (TextOrPlaceholder.text "d"),
       InlineContent.codeSpan "c", InlineContent.hardLineBreak,
       InlineContent.icuPound] =
      some (specPlainTextList
        [InlineContent.text "a",
         InlineContent.strong [InlineContent.text "b"],
         InlineContent.link [InlineContent.text "l"] (TextOrPlaceholder.text "d"),
         InlineContent.codeSpan "c", InlineContent.hardLineBreak,
         InlineContent.icuPound]) :=
  ⟨by simp [inlineListContainsIcu, inlineContainsIcu],
   format_plain_text_no_icu _ (by simp [inlineListContainsIcu, inlineContainsIcu])⟩

/-- Claim C8: on an inline sequence in which the flattening traversal
reaches an ICU placeholder other than pound, format_plain_text yields no
normal result (the unimplemented branch fires). -/
theorem format_plain_text_icu_unimplemented (elements : List InlineContent)
    (h : inlineListContainsIcu elements = true) :
    format_plain_text elements = none := by
  rw [format_plain_text, format_inner_char elements "", if_pos h]

/-- Witness for claim C8 on a sequence holding one ICU variable. -/
theorem format_plain_text_icu_unimplemented_witness :
    inlineListContainsIcu [InlineContent.icu (Icu.icuVariable "x")] = true ∧
    format_plain_text [InlineContent.icu (Icu.icuVariable "x")] = none :=
  ⟨by simp [inlineListContainsIcu, inlineContainsIcu],
   format_plain_text_icu_unimplemented _
     (by simp [inlineListContainsIcu, inlineContainsIcu])⟩

/-- Witness for claim C2 at a concrete parser, interner and input. -/
theorem from_raw_contract_witness :
    (MessageValue.from_raw (fun _ _ => ⟨[]⟩) (fun _ => false) goodIntern "x").raw =
      "x" :=
  (from_raw_contract (fun _ _ => ⟨[]⟩) (fun _ => false) goodIntern "x").1

/-- Witness for claim C3 on two concrete values that differ in every field
except the raw text. -/
theorem message_value_eq_iff_raw_witness :
    (MessageValue.beq ⟨"a", ⟨[]⟩, none, none⟩
        ⟨"a", ⟨[BlockNode.thematicBreak]⟩, some MessageVariables.new, none⟩ = true) ↔
      ("a" : String) = "a" :=
  (message_value_eq_iff_raw ⟨"a", ⟨[]⟩, none, none⟩
    ⟨"a", ⟨[BlockNode.thematicBreak]⟩, some MessageVariables.new, none⟩).1

/-- Recording an appended occurrence list is recording both parts in turn. -/
theorem addAll_append (mv : MessageVariables)
    (l1 l2 : List (KeySymbol × MessageVariableType)) :
    mv.addAll (l1 ++ l2) = (mv.addAll l1).addAll l2 := by
  simp [MessageVariables.addAll, List.foldl_append]

mutual

/-- Visiting an inline sequence with the always-successful interner records
exactly the specification's occurrence list for that sequence. -/
theorem visitInlineChildren_spec (content : List InlineContent) :
    ∀ mv, MessageVariablesVisitor.visitInlineChildren goodIntern content mv =
      Except.ok (mv.addAll (specInlineListInstances content)) := by
  intro mv
  match content with
  | [] =>
    rw [MessageVariablesVisitor.visitInlineChildren]
    simp [specInlineListInstances, MessageVariables.addAll]
  | child :: rest =>
    rw [MessageVariablesVisitor.visitInlineChildren]
    rw [visitInlineContent_spec child mv]
    show MessageVariablesVisitor.visitInlineChildren goodIntern rest
        (mv.addAll (specInlineInstances child)) =
      Except.ok (mv.addAll (specInlineListInstances (child :: rest)))
    rw [visitInlineChildren_spec rest (mv.addAll (specInlineInstances child))]
    rw [specInlineListInstances, addAll_append]
termination_by sizeOf content

/-- Visiting one inline node with the always-successful interner records
exactly the specification's occurrence list for that node. -/
theorem visitInlineContent_spec (element : InlineContent) :
    ∀ mv, MessageVariablesVisitor.visitInlineContent goodIntern element mv =
      Except.ok (mv.addAll (specInlineInstances element)) := by
  intro mv
  match element with
  | InlineContent.text t =>
    show Except.ok mv =
      Except.ok (mv.addAll (specInlineInstances (InlineContent.text t)))
    simp [specInlineInstances, MessageVariables.addAll]
  | InlineContent.icuPound =>
    show Except.ok mv =
      Except.ok (mv.addAll (specInlineInstances InlineContent.icuPound))
    simp [specInlineInstances, MessageVariables.addAll]
  | InlineContent.icu icuNode =>
    show MessageVariablesVisitor.visitIcu goodIntern icuNode mv =
      Except.ok (mv.addAll (specInlineInstances (InlineContent.icu icuNode)))
    rw [visitIcu_spec icuNode mv]
    rw [specInlineInstances]
  | InlineContent.emphasis content =>
    show MessageVariablesVisitor.visitInlineChildren goodIntern content
        (mv.addInstance "i" MessageVariableType.hookFunction none) =
      Except.ok (mv.addAll (specInlineInstances (InlineContent.emphasis content)))
    rw [visitInlineChildren_spec content
      (mv.addInstance "i" MessageVariableType.hookFunction none)]
    simp [specInlineInstances, MessageVariables.addAll]
  | InlineContent.strong content =>
    show MessageVariablesVisitor.visitInlineChildren goodIntern content
        (mv.addInstance "b" MessageVariableType.hookFunction none) =
      Except.ok (mv.addAll (specInlineInstances (InlineContent.strong content)))
    rw [visitInlineChildren_spec content
      (mv.addInstance "b" MessageVariableType.hookFunction none)]
    simp [specInlineInstances, MessageVariables.addAll]
  | InlineContent.strikethrough content =>
    show MessageVariablesVisitor.visitInlineChildren goodIntern content
        (mv.addInstance "del" MessageVariableType.hookFunction none) =
      Except.ok (mv.addAll
        (specInlineInstances (InlineContent.strikethrough content)))
    rw [visitInlineChildren_spec content
      (mv.addInstance "del" MessageVariableType.hookFunction none)]
    simp [specInlineInstances, MessageVariables.addAll]
  | InlineContent.hardLineBreak =>
    show Except.ok (mv.addInstance "br" MessageVariableType.hookFunction none) =
      Except.ok (mv.addAll (specInlineInstances InlineContent.hardLineBreak))
    simp [specInlineInstances, MessageVariables.addAll]
  | InlineContent.codeSpan content =>
    show Except.ok (mv.addInstance "code" MessageVariableType.hookFunction none) =
      Except.ok (mv.addAll (specInlineInstances (InlineContent.codeSpan content)))
    simp [specInlineInstances, MessageVariables.addAll]
  | InlineContent.hook name content =>
    show MessageVariablesVisitor.visitInlineChildren goodIntern content
        (mv.addInstance name MessageVariableType.hookFunction none) =
      Except.ok (mv.addAll (specInlineInstances (InlineContent.hook name content)))
    rw [visitInlineChildren_spec content
      (mv.addInstance name MessageVariableType.hookFunction none)]
    simp [specInlineInstances, MessageVariables.addAll]
  | InlineContent.link label destination =>
    match destination with
    | TextOrPlaceholder.text t =>
      show (match MessageVariablesVisitor.visitInlineChildren goodIntern label
          (mv.addInstance "link" MessageVariableType.linkFunction none) with
        | Except.error e => Except.error e
        | Except.ok variables2 => Except.ok variables2) =
        Except.ok (mv.addAll (specInlineInstances
          (InlineContent.link label (TextOrPlaceholder.text t))))
      rw [visitInlineChildren_spec label
        (mv.addInstance "link" MessageVariableType.linkFunction none)]
      rw [specInlineInstances, specDestinationInstances]
      simp [MessageVariables.addAll, List.foldl_append]
    | TextOrPlaceholder.placeholder icuNode =>
      show (match MessageVariablesVisitor.visitInlineChildren goodIntern label
          (mv.addInstance "link" MessageVariableType.linkFunction none) with
        | Except.error e => Except.error e
        | Except.ok variables2 =>
          MessageVariablesVisitor.visitIcu goodIntern icuNode variables2) =
        Except.ok (mv.addAll (specInlineInstances
          (InlineContent.link label (TextOrPlaceholder.placeholder icuNode))))
      rw [visitInlineChildren_spec label
        (mv.addInstance "link" MessageVariableType.linkFunction none)]
      show MessageVariablesVisitor.visitIcu goodIntern icuNode
          ((mv.addInstance "link" MessageVariableType.linkFunction none).addAll
            (specInlineListInstances label)) =
        Except.ok (mv.addAll (specInlineInstances
          (InlineContent.link label (TextOrPlaceholder.placeholder icuNode))))
      rw [visitIcu_spec icuNode
        ((mv.addInstance "link" MessageVariableType.linkFunction none).addAll
          (specInlineListInstances label))]
      rw [specInlineInstances, specDestinationInstances]
      simp [MessageVariables.addAll, List.foldl_append]
termination_by sizeOf element

/-- Visiting an ICU node with the always-successful interner records exactly
the specification's occurrence list for that node. -/
theorem visitIcu_spec (icuNode : Icu) :
    ∀ mv, MessageVariablesVisitor.visitIcu goodIntern icuNode mv =
      Except.ok (mv.addAll (specIcuInstances icuNode)) := by
  intro mv
  match icuNode with
  | Icu.icuVariable name =>
    rw [MessageVariablesVisitor.visitIcu]
    show Except.ok (mv.addInstance name MessageVariableType.any none) =
      Except.ok (mv.addAll (specIcuInstances (Icu.icuVariable name)))
    simp [specIcuInstances, MessageVariables.addAll]
  | Icu.icuPlural name arms =>
    rw [MessageVariablesVisitor.visitIcu]
    show MessageVariablesVisitor.visitPluralArms goodIntern arms
        (mv.addInstance name MessageVariableType.plural none) =
      Except.ok (mv.addAll (specIcuInstances (Icu.icuPlural name arms)))
    rw [visitPluralArms_spec arms
      (mv.addInstance name MessageVariableType.plural none)]
    simp [specIcuInstances, MessageVariables.addAll]
  | Icu.icuDate name =>
    rw [MessageVariablesVisitor.visitIcu]
    show Except.ok (mv.addInstance name MessageVariableType.date none) =
      Except.ok (mv.addAll (specIcuInstances (Icu.icuDate name)))
    simp [specIcuInstances, MessageVariables.addAll]
  | Icu.icuTime name =>
    rw [MessageVariablesVisitor.visitIcu]
    show Except.ok (mv.addInstance name MessageVariableType.time none) =
      Except.ok (mv.addAll (specIcuInstances (Icu.icuTime name)))
    simp [specIcuInstances, MessageVariables.addAll]
  | Icu.icuNumber name =>
    rw [MessageVariablesVisitor.visitIcu]
    show Except.ok (mv.addInstance name MessageVariableType.number none) =
      Except.ok (mv.addAll (specIcuInstances (Icu.icuNumber name)))
    simp [specIcuInstances, MessageVariables.addAll]
termination_by sizeOf icuNode

/-- Visiting plural arms with the always-successful interner records exactly
the specification's occurrence list for the arm contents. -/
theorem visitPluralArms_spec (arms : List IcuPluralArm) :
    ∀ mv, MessageVariablesVisitor.visitPluralArms goodIntern arms mv =
      Except.ok (mv.addAll (specPluralArmsInstances arms)) := by
  intro mv
  match arms with
  | [] =>
    rw [MessageVariablesVisitor.visitPluralArms]
    simp [specPluralArmsInstances, MessageVariables.addAll]
  | IcuPluralArm.mk selector content :: rest =>
    rw [MessageVariablesVisitor.visitPluralArms]
    rw [visitInlineChildren_spec content mv]
    show MessageVariablesVisitor.visitPluralArms goodIntern rest
        (mv.addAll (specInlineListInstances content)) =
      Except.ok (mv.addAll
        (specPluralArmsInstances (IcuPluralArm.mk selector content :: rest)))
    rw [visitPluralArms_spec rest (mv.addAll (specInlineListInstances content))]
    rw [specPluralArmsInstances, addAll_append]
termination_by sizeOf arms

end

/-- Visiting one block with the always-successful interner records exactly
the specification's occurrence list for that block. -/
theorem visitBlock_spec (block : BlockNode) (mv : MessageVariables) :
    MessageVariablesVisitor.visitBlock goodIntern block mv =
      Except.ok (mv.addAll (specBlockInstances block)) := by
  match block with
  | BlockNode.inlineContent content =>
    rw [MessageVariablesVisitor.visitBlock]
    rw [visitInlineChildren_spec content mv]
    rw [specBlockInstances]
  | BlockNode.paragraph content =>
    rw [MessageVariablesVisitor.visitBlock]
    show MessageVariablesVisitor.visitInlineChildren goodIntern content
        (mv.addInstance "p" MessageVariableType.hookFunction none) =
      Except.ok (mv.addAll (specBlockInstances (BlockNode.paragraph content)))
    rw [visitInlineChildren_spec content
      (mv.addInstance "p" MessageVariableType.hookFunction none)]
    simp [specBlockInstances, MessageVariables.addAll]
  | BlockNode.heading level content =>
    rw [MessageVariablesVisitor.visitBlock]
    show MessageVariablesVisitor.visitInlineChildren goodIntern content
        (mv.addInstance ("h" ++ toString level)
          MessageVariableType.hookFunction none) =
      Except.ok (mv.addAll (specBlockInstances (BlockNode.heading level content)))
    rw [visitInlineChildren_spec content
      (mv.addInstance ("h" ++ toString level) MessageVariableType.hookFunction none)]
    simp [specBlockInstances, MessageVariables.addAll]
  | BlockNode.codeBlock content =>
    rw [MessageVariablesVisitor.visitBlock]
    show Except.ok (mv.addInstance "codeBlock" MessageVariableType.hookFunction none) =
      Except.ok (mv.addAll (specBlockInstances (BlockNode.codeBlock content)))
    simp [specBlockInstances, MessageVariables.addAll]
  | BlockNode.thematicBreak =>
    rw [MessageVariablesVisitor.visitBlock]
    show Except.ok (mv.addInstance "hr" MessageVariableType.hookFunction none) =
      Except.ok (mv.addAll (specBlockInstances BlockNode.thematicBreak))
    simp [specBlockInstances, MessageVariables.addAll]

/-- Visiting a block sequence with the always-successful interner records
exactly the specification's occurrence list. -/
theorem visitBlocks_spec (blocks : List BlockNode) :
    ∀ mv, MessageVariablesVisitor.visitBlocks goodIntern blocks mv =
      Except.ok (mv.addAll (specBlocksInstances blocks)) := by
  induction blocks with
  | nil =>
    intro mv
    rw [MessageVariablesVisitor.visitBlocks]
    simp [specBlocksInstances, MessageVariables.addAll]
  | cons block rest ih =>
    intro mv
    rw [MessageVariablesVisitor.visitBlocks]
    rw [visitBlock_spec block mv]
    show MessageVariablesVisitor.visitBlocks goodIntern rest
        (mv.addAll (specBlockInstances block)) =
      Except.ok (mv.addAll (specBlocksInstances (block :: rest)))
    rw [ih (mv.addAll (specBlockInstances block))]
    rw [specBlocksInstances, addAll_append]

/-- Claim C1: for every document the variable-extraction visitor, run with
the always-successful interner on an empty catalog, records exactly one
instance per AST-node occurrence following the specification's fixed
name-and-type mapping, recursing into every nested inline sequence and into
ICU placeholders in link destinations, in traversal order and without
deduplication. -/
theorem message_variables_visitor_correct (d : Document) :
    MessageVariablesVisitor.visit goodIntern d MessageVariables.new =
      Except.ok (MessageVariables.new.addAll (specDocumentInstances d)) := by
  rw [MessageVariablesVisitor.visit, specDocumentInstances]
  exact visitBlocks_spec d.blocks MessageVariables.new

end DiscordIntl
